import Mathlib

set_option linter.unusedVariables false
set_option linter.unreachableTactic false
set_option linter.unnecessarySeqFocus false
set_option linter.unusedTactic false

/-!
Verification development for the zodvex schema/codec bridge.

The repository converts Zod schemas into Convex validators (`zodToConvex`,
`src/mapping/core.ts`) and converts values between rich JS values and
Convex-safe wire JSON (`toConvexJS` / `fromConvexJS`, `src/codec.ts`).
This file gives a shallow embedding of those algorithms over an explicit
model of JS values and Zod schema trees, and proves the specification
claims about them.

Modelling conventions:
* JS numbers that matter to the claims are epoch-millisecond timestamps and
  small integers, modelled as `Int` (floating point is not needed by any
  claim).  `Date` objects are modelled as `JSValue.date ms`.
* JS objects are association lists `List (String × JSValue)` preserving
  insertion order, which is the order `Object.entries` iterates in.
* Zod schema trees are modelled by `ZSchema`.  Each occurrence of a tree
  constructor denotes a fresh schema object; shared / self-referential
  nodes (reachable through `z.lazy`) are modelled as `ZSchema.ref i`
  pointing into an environment `env : List ZSchema` of shared nodes, and
  the per-call visited set of `zodToConvexInternal` is modelled as the set
  of `ref` indices entered so far (tree constructors are never shared, so
  the `visited.has` check can only ever fire on them through a `ref`).
* `registry.ts` is not part of the sources; per the spec the base-codec
  registry is an explicitly-initialized table that is empty until a
  consumer registers entries, so `findBaseCodec` is modelled as the
  bootstrap (empty) registry and date-classification through registered
  brand/transform wrappers (`isDateSchema`) is modelled as a flag on
  transform nodes.
-/

/-- Model of a JS runtime value as it appears on either side of the codec:
`undef` is JS `undefined`, `date ms` a `Date` at epoch-millisecond `ms`,
objects are ordered association lists. -/
inductive JSValue where
  | undef : JSValue
  | null : JSValue
  | bool : Bool → JSValue
  | num : Int → JSValue
  | str : String → JSValue
  | date : Int → JSValue
  | arr : List JSValue → JSValue
  | obj : List (String × JSValue) → JSValue

/-- Model of a Zod schema tree (the schema kinds the claims are about).
`ref i` models a `z.lazy` node whose getter resolves to the shared node
`env[i]`; an out-of-range index models a getter that is missing, throws,
or returns a non-schema (resolution failure).  `transform b` models a
`ZodTransform`/pipe node, with `b = true` when the node is classified as
date-bearing through the registry (`isDateSchema`). -/
inductive ZSchema where
  | string : ZSchema
  | number : ZSchema
  | boolean : ZSchema
  | date : ZSchema
  | null : ZSchema
  | literal : JSValue → ZSchema
  | enum : List String → ZSchema
  | array : ZSchema → ZSchema
  | object : List (String × ZSchema) → ZSchema
  | record : ZSchema → ZSchema
  | union : List ZSchema → ZSchema
  | optional : ZSchema → ZSchema
  | nullable : ZSchema → ZSchema
  | default : JSValue → ZSchema → ZSchema
  | transform : Bool → ZSchema
  | any : ZSchema
  | unknown : ZSchema
  | ref : Nat → ZSchema

/-- JS strict equality on the primitive values that can appear in a
`z.literal` schema (strings, numbers, booleans); `===` on anything else is
reference equality, which never matters to the claims. -/
def jsAtomEq : JSValue → JSValue → Bool
  | .bool a, .bool b => a == b
  | .num a, .num b => a == b
  | .str a, .str b => a == b
  | _, _ => false

mutual

/-- Embeds `basicToConvex` (src/codec.ts lines 50-70): schema-agnostic deep
conversion — dates become epoch-millisecond numbers, object keys bound to
`undefined` are dropped, arrays and objects are converted recursively. -/
def basicToConvex : JSValue → JSValue
  | .undef => .undef
  | .null => .null
  | .bool b => .bool b
  | .num n => .num n
  | .str s => .str s
  | .date ms => .num ms
  | .arr xs => .arr (basicToConvexList xs)
  | .obj fields => .obj (basicToConvexFields fields)

/-- The element-wise traversal of `basicToConvex` over an array. -/
def basicToConvexList : List JSValue → List JSValue
  | [] => []
  | x :: rest => basicToConvex x :: basicToConvexList rest

/-- The field-wise traversal of `basicToConvex` over an object: entries
whose value is `undefined` are dropped. -/
def basicToConvexFields : List (String × JSValue) → List (String × JSValue)
  | [] => []
  | (k, v) :: rest =>
      match v with
      | .undef => basicToConvexFields rest
      | v => (k, basicToConvex v) :: basicToConvexFields rest

end

/-- A value found by association-list lookup is structurally smaller than
the list (used for termination of the schema-directed traversals). -/
theorem sizeOf_lookup_lt {α : Type} [SizeOf α] (k : String) (v : α) :
    ∀ l : List (String × α), l.lookup k = some v → sizeOf v < sizeOf l := by
  intro l
  induction l with
  | nil => intro h; simp [List.lookup] at h
  | cons hd tl ih =>
      intro h
      rw [List.lookup] at h
      split at h
      · cases hd with
        | mk k2 v2 =>
            simp only [Option.some.injEq] at h
            subst h
            simp
            omega
      · have := ih h
        simp
        omega

/-- Lexicographic helper for the termination proofs: the first component
may stay equal while the second strictly decreases. -/
theorem lex_le_lt {a a' b b' : Nat} (h1 : a' ≤ a) (h2 : b' < b) :
    Prod.Lex (· < ·) (· < ·) (a', b') (a, b) := by
  rcases Nat.lt_or_ge a' a with h | h
  · exact Prod.Lex.left _ _ h
  · have h3 : a' = a := Nat.le_antisymm h1 h
    subst h3
    exact Prod.Lex.right _ h2

/-- Whether a field schema lets the field be absent from a parsed object:
optional wrappers and default wrappers do (Zod fills the default). -/
def isOptionalish : ZSchema → Bool
  | .optional _ => true
  | .default _ _ => true
  | _ => false

mutual

/-- Modelled from the spec: the Zod library is an external dependency, so a
successful `schema.parse(value)` (as used by the codec's union dispatch,
src/codec.ts lines 120-126 and 198-205) is modelled by this structural
acceptance check.  Objects allow unknown extra keys (Zod's default strip
mode); optional/default-wrapped fields may be absent or `undefined`; a
bare transform node accepts any input; lazy nodes are not resolved here
and accept anything. -/
def zodAccepts : ZSchema → JSValue → Bool
  | .string, .str _ => true
  | .number, .num _ => true
  | .boolean, .bool _ => true
  | .date, .date _ => true
  | .null, .null => true
  | .literal lv, v => jsAtomEq v lv
  | .enum vs, .str s => vs.contains s
  | .array e, .arr xs => zodAcceptsList e xs
  | .object shape, .obj fields => zodAcceptsShape shape fields
  | .record val, .obj fields => zodAcceptsRec val fields
  | .union opts, v => zodAcceptsAny opts v
  | .optional inner, v =>
      (match v with
       | .undef => true
       | v => zodAccepts inner v)
  | .nullable inner, v =>
      (match v with
       | .null => true
       | v => zodAccepts inner v)
  | .default _ inner, v =>
      (match v with
       | .undef => true
       | v => zodAccepts inner v)
  | .transform _, _ => true
  | .any, _ => true
  | .unknown, _ => true
  | .ref _, _ => true
  | _, _ => false
termination_by s v => (sizeOf v, sizeOf s)

/-- Element-wise acceptance for an array schema. -/
def zodAcceptsList : ZSchema → List JSValue → Bool
  | _, [] => true
  | e, x :: rest => zodAccepts e x && zodAcceptsList e rest
termination_by e xs => (sizeOf xs, sizeOf e)

/-- Shape-wise acceptance for an object schema: every declared field must
be accepted when present, and may only be absent when optional-ish. -/
def zodAcceptsShape : List (String × ZSchema) → List (String × JSValue) → Bool
  | [], _ => true
  | (k, s) :: rest, fields =>
      (match h : fields.lookup k with
       | some fv => zodAccepts s fv
       | none => isOptionalish s) && zodAcceptsShape rest fields
termination_by shape fields => (sizeOf fields, sizeOf shape)
decreasing_by
  all_goals simp_wf
  all_goals first
    | (exact sizeOf_lookup_lt _ _ _ h)
    | (exact Prod.Lex.left _ _ (sizeOf_lookup_lt _ _ _ h))
    | (apply lex_le_lt (Nat.le_refl _) <;> simp <;> omega)
    | (apply Prod.Lex.left _ _ ?_ <;> simp <;> omega)
    | (apply Prod.Lex.right <;> simp <;> omega)
    | (simp <;> omega)
    | omega

/-- Entry-wise acceptance for a record schema. -/
def zodAcceptsRec : ZSchema → List (String × JSValue) → Bool
  | _, [] => true
  | val, (_, fv) :: rest => zodAccepts val fv && zodAcceptsRec val rest
termination_by val fields => (sizeOf fields, sizeOf val)

/-- Acceptance by some branch of a union schema. -/
def zodAcceptsAny : List ZSchema → JSValue → Bool
  | [], _ => false
  | o :: rest, v => zodAccepts o v || zodAcceptsAny rest v
termination_by opts v => (sizeOf v, sizeOf opts)

end

mutual

/-- Embeds `schemaToConvex` (src/codec.ts lines 72-144): schema-aware
encoding.  `undefined`/`null` pass through; the base-codec registry check
is the bootstrap (empty) registry and never fires; optional/nullable/
default wrappers unwrap transparently; a date value under a date schema
becomes its epoch-millisecond number; arrays, objects and records recurse
(mistyped non-array/non-object values pass through unchanged; the JS
corner case of an array fed to an object schema is not modelled); unions
try each branch's parse in declaration order and recurse into the first
accepting branch; every other schema kind falls through to
`basicToConvex`. -/
def schemaToConvex : JSValue → ZSchema → JSValue
  | .undef, _ => .undef
  | .null, _ => .null
  | v, .optional inner => schemaToConvex v inner
  | v, .nullable inner => schemaToConvex v inner
  | v, .default _ inner => schemaToConvex v inner
  | v, .date =>
      (match v with
       | .date ms => .num ms
       | v => basicToConvex v)
  | v, .array e =>
      (match v with
       | .arr xs => .arr (schemaToConvexList xs e)
       | v => v)
  | v, .object shape =>
      (match v with
       | .obj fields => .obj (schemaToConvexObj fields shape)
       | v => v)
  | v, .union opts => schemaToConvexUnion v opts
  | v, .record val =>
      (match v with
       | .obj fields => .obj (schemaToConvexRec fields val)
       | v => v)
  | v, _ => basicToConvex v
termination_by v s => (sizeOf v, sizeOf s)

/-- Element-wise encoding of an array (src/codec.ts line 101). -/
def schemaToConvexList : List JSValue → ZSchema → List JSValue
  | [], _ => []
  | x :: rest, e => schemaToConvex x e :: schemaToConvexList rest e
termination_by xs e => (sizeOf xs, sizeOf e)

/-- Field-wise encoding of an object (src/codec.ts lines 104-115):
`undefined`-valued keys are dropped, fields in the schema's shape are
encoded schema-aware, extra fields fall back to `basicToConvex`. -/
def schemaToConvexObj :
    List (String × JSValue) → List (String × ZSchema) → List (String × JSValue)
  | [], _ => []
  | (k, v) :: rest, shape =>
      match v with
      | .undef => schemaToConvexObj rest shape
      | v =>
          (k, match shape.lookup k with
              | some s => schemaToConvex v s
              | none => basicToConvex v) :: schemaToConvexObj rest shape
termination_by fields shape => (sizeOf fields, sizeOf shape)

/-- Entry-wise encoding of a record (src/codec.ts lines 131-140):
`undefined`-valued keys are dropped, values are encoded against the
record's value schema. -/
def schemaToConvexRec :
    List (String × JSValue) → ZSchema → List (String × JSValue)
  | [], _ => []
  | (k, v) :: rest, val =>
      match v with
      | .undef => schemaToConvexRec rest val
      | v => (k, schemaToConvex v val) :: schemaToConvexRec rest val
termination_by fields val => (sizeOf fields, sizeOf val)

/-- The union loop of `schemaToConvex` (src/codec.ts lines 118-128): try
each branch's parse against the value in declaration order and recurse
into the first accepting branch; when none accepts, execution falls past
the union block to the default `basicToConvex` fallback (line 143). -/
def schemaToConvexUnion : JSValue → List ZSchema → JSValue
  | v, [] => basicToConvex v
  | v, o :: rest =>
      if zodAccepts o v then schemaToConvex v o else schemaToConvexUnion v rest
termination_by v opts => (sizeOf v, sizeOf opts)

end

/-- Embeds the two-argument (schema-aware) form of `toConvexJS`
(src/codec.ts lines 39-48). -/
def toConvexJS (schema : ZSchema) (value : JSValue) : JSValue :=
  schemaToConvex value schema

/-- Embeds the one-argument (schema-agnostic) form of `toConvexJS`
(src/codec.ts lines 41-44): basic conversion only. -/
def toConvexJS1 (value : JSValue) : JSValue :=
  basicToConvex value

/-- Modelled from the spec: `isDateSchema` lives in registry.ts, which is
not among the sources; it recognizes schemas classified as date-bearing
through registered brand/transform wrappers, modelled here as the flag
carried on transform nodes. -/
def isDateSchema : ZSchema → Bool
  | .transform b => b
  | _ => false

mutual

/-- Embeds `fromConvexJS` (src/codec.ts lines 147-227): schema-aware
decoding.  `undefined`/`null` pass through; the registry check is the
bootstrap (empty) registry; wrappers unwrap transparently; a numeric
value under a date schema (directly `ZodDate`, or date-classified via
`isDateSchema`) becomes a date; arrays, objects and records recurse;
unions try each branch's decode in declaration order and return the first
decoded value that re-validates; transforms and every other schema kind
pass the value through unchanged. -/
def fromConvexJS : JSValue → ZSchema → JSValue
  | .undef, _ => .undef
  | .null, _ => .null
  | v, .optional inner => fromConvexJS v inner
  | v, .nullable inner => fromConvexJS v inner
  | v, .default _ inner => fromConvexJS v inner
  | v, .date =>
      (match v with
       | .num ms => .date ms
       | v => v)
  | v, .transform b =>
      (match b, v with
       | true, .num ms => .date ms
       | _, v => v)
  | v, .array e =>
      (match v with
       | .arr xs => .arr (fromConvexJSList xs e)
       | v => v)
  | v, .object shape =>
      (match v with
       | .obj fields => .obj (fromConvexJSObj fields shape)
       | v => v)
  | v, .union opts => fromConvexJSUnion v opts
  | v, .record val =>
      (match v with
       | .obj fields => .obj (fromConvexJSRec fields val)
       | v => v)
  | v, _ => v
termination_by v s => (sizeOf v, sizeOf s)

/-- Element-wise decoding of an array (src/codec.ts line 181). -/
def fromConvexJSList : List JSValue → ZSchema → List JSValue
  | [], _ => []
  | x :: rest, e => fromConvexJS x e :: fromConvexJSList rest e
termination_by xs e => (sizeOf xs, sizeOf e)

/-- Field-wise decoding of an object (src/codec.ts lines 184-193): fields
in the schema's shape are decoded schema-aware, extra fields are kept
unchanged (no `undefined` dropping on decode). -/
def fromConvexJSObj :
    List (String × JSValue) → List (String × ZSchema) → List (String × JSValue)
  | [], _ => []
  | (k, v) :: rest, shape =>
      (k, match shape.lookup k with
          | some s => fromConvexJS v s
          | none => v) :: fromConvexJSObj rest shape
termination_by fields shape => (sizeOf fields, sizeOf shape)

/-- Entry-wise decoding of a record (src/codec.ts lines 209-217). -/
def fromConvexJSRec :
    List (String × JSValue) → ZSchema → List (String × JSValue)
  | [], _ => []
  | (k, v) :: rest, val => (k, fromConvexJS v val) :: fromConvexJSRec rest val
termination_by fields val => (sizeOf fields, sizeOf val)

/-- The union loop of `fromConvexJS` (src/codec.ts lines 195-207): decode
against each branch in declaration order and return the first decoded
value that re-validates against its branch; when none does, execution
falls past the union block to the final passthrough (line 226). -/
def fromConvexJSUnion : JSValue → List ZSchema → JSValue
  | v, [] => v
  | v, o :: rest =>
      let d := fromConvexJS v o
      if zodAccepts o d then d else fromConvexJSUnion v rest
termination_by v opts => (sizeOf v, sizeOf opts)

end

/-- Convex validator trees as produced by the mapper (`v.string()`,
`v.float64()`, `v.object({...})`, ...).  `voptional` is `v.optional(...)`;
`withDefault dv inner` models the `_zodDefault` side-channel property the
mapper attaches to the validator object it returns (src/mapping/core.ts
lines 296-298), so metadata wraps rather than mutates here.  `vrecord`
carries its key validator explicitly (`v.record(v.string(), value)`). -/
inductive CValidator where
  | any : CValidator
  | vstring : CValidator
  | vfloat64 : CValidator
  | vboolean : CValidator
  | vnull : CValidator
  | vliteral : JSValue → CValidator
  | varray : CValidator → CValidator
  | vobject : List (String × CValidator) → CValidator
  | vunion : List CValidator → CValidator
  | vrecord : CValidator → CValidator → CValidator
  | voptional : CValidator → CValidator
  | withDefault : JSValue → CValidator → CValidator

/-- Modelled from the spec: `convertEnumType` lives in mapping/handlers.ts,
which is not among the sources.  Per the spec, an enum of one value maps
to a single literal and an enum of two or more values maps to a union of
per-value literals. -/
def convertEnumType (vs : List String) : CValidator :=
  match vs with
  | [v] => .vliteral (.str v)
  | vs => .vunion (vs.map (fun x => .vliteral (.str x)))

/-- Size of the part of the shared-node environment not yet visited; the
first component of the mapper's termination measure. -/
def unvisitedCount (n : Nat) (visited : Finset Nat) : Nat :=
  (Finset.range n \ visited).card

/-- Growing the visited set never increases the unvisited count. -/
theorem unvisitedCount_union_le (n : Nat) (d visited : Finset Nat) :
    unvisitedCount n (d ∪ visited) ≤ unvisitedCount n visited := by
  apply Finset.card_le_card
  apply Finset.sdiff_subset_sdiff (Finset.Subset.refl _)
  exact Finset.subset_union_right

/-- Entering a fresh in-range shared node strictly shrinks the unvisited
count. -/
theorem unvisitedCount_insert_lt (n i : Nat) (visited : Finset Nat)
    (h1 : i < n) (h2 : i ∉ visited) :
    unvisitedCount n (insert i visited) < unvisitedCount n visited := by
  apply Finset.card_lt_card
  constructor
  · apply Finset.sdiff_subset_sdiff (Finset.Subset.refl _)
    exact Finset.subset_insert _ _
  · intro hsub
    have hi : i ∈ Finset.range n \ visited := by
      simp [Finset.mem_sdiff, Finset.mem_range, h1, h2]
    have := hsub hi
    simp [Finset.mem_sdiff] at this

/-- Lexicographic helper for triple measures: first component may shrink
weakly while the second shrinks strictly. -/
theorem lex3_le_lt {a a' b b' c c' : Nat} (h1 : a' ≤ a) (h2 : b' < b) :
    Prod.Lex (· < ·) (Prod.Lex (· < ·) (· < ·)) (a', (b', c')) (a, (b, c)) := by
  rcases Nat.lt_or_ge a' a with h | h
  · exact Prod.Lex.left _ _ h
  · have h3 : a' = a := Nat.le_antisymm h1 h
    subst h3
    exact Prod.Lex.right _ (Prod.Lex.left _ _ h2)

/-- Lexicographic helper for triple measures: first two components may
stay put while the third shrinks strictly. -/
theorem lex3_le_eq_lt {a a' b b' c c' : Nat} (h1 : a' ≤ a) (h2 : b' = b)
    (h3 : c' < c) :
    Prod.Lex (· < ·) (Prod.Lex (· < ·) (· < ·)) (a', (b', c')) (a, (b, c)) := by
  rcases Nat.lt_or_ge a' a with h | h
  · exact Prod.Lex.left _ _ h
  · have h4 : a' = a := Nat.le_antisymm h1 h
    subst h4
    subst h2
    exact Prod.Lex.right _ (Prod.Lex.right _ h3)

/-- Applies the optionality and default-metadata recorded while unwrapping
wrappers to the core validator (src/mapping/core.ts lines 292-300): the
validator is wrapped in `v.optional` exactly when optionality was
recorded, and the `_zodDefault` side channel is attached exactly when a
default was recorded. -/
def finishValidator (dflt : Option JSValue) (isOpt : Bool)
    (r : CValidator × Bool × Finset Nat) : CValidator × Finset Nat :=
  let opt := isOpt || r.2.1
  let f1 := if opt then CValidator.voptional r.1 else r.1
  let f2 := match dflt with
    | some dv => CValidator.withDefault dv f1
    | none => f1
  (f2, r.2.2)

mutual

/-- Embeds `zodToConvexInternal` (src/mapping/core.ts lines 21-301).  The
argument `env` is the environment of shared nodes reachable through lazy
getters and `visited` the per-call visited set (see the module comment).
The wrapper unwrapping (lines 37-63) is spelled out as the possible
shapes of default/optional nesting: a `ZodDefault` is unwrapped recording
its default, an optional found beneath it records optionality, and a
default found beneath that optional overwrites the recorded default; the
unwrapped core is dispatched by `mapCore` and the recorded flags are
applied by `finishValidator` (lines 292-300).  Zid nodes and the brand
metadata of registry.ts are not modelled (no claim mentions them, and the
bootstrap registry is empty), and `ZodPrefault` is not modelled. -/
def zodToConvexInternal (env : List ZSchema) (s : ZSchema) (visited : Finset Nat) :
    CValidator × Finset Nat :=
  match s with
  | .default dv (.optional (.default dv2 inner)) =>
      finishValidator (some dv2) true (mapCore env inner visited)
  | .default dv (.optional inner) =>
      finishValidator (some dv) true (mapCore env inner visited)
  | .default dv inner =>
      finishValidator (some dv) false (mapCore env inner visited)
  | .optional (.default dv2 inner) =>
      finishValidator (some dv2) true (mapCore env inner visited)
  | .optional inner =>
      finishValidator none true (mapCore env inner visited)
  | s =>
      finishValidator none false (mapCore env s visited)
termination_by (unvisitedCount env.length visited, sizeOf s, 1)

/-- The type switch of `zodToConvexInternal` (src/mapping/core.ts lines
65-290) applied to the validator left after wrapper unwrapping.  Returns
the core validator, whether the nullable handler additionally recorded
optionality, and the set of shared-node indices entered.  A double
wrapper left after unwrapping (`defType` "optional"/"default") falls into
the switch's default branch and yields `v.any()`, as do transforms
without a registered codec or brand (lines 185-203), `z.any`/`z.unknown`,
and unrecognized kinds. -/
def mapCore (env : List ZSchema) (actual : ZSchema) (visited : Finset Nat) :
    CValidator × Bool × Finset Nat :=
  match actual with
  | .string => (.vstring, false, ∅)
  | .number => (.vfloat64, false, ∅)
  | .boolean => (.vboolean, false, ∅)
  | .date => (.vfloat64, false, ∅)
  | .null => (.vnull, false, ∅)
  | .array e =>
      let r := zodToConvexInternal env e visited
      (.varray r.1, false, r.2)
  | .object shape =>
      let r := mapFields env shape visited
      (.vobject r.1, false, r.2)
  | .union opts =>
      let r := convertUnionType env opts visited
      (.vunion r.1, false, r.2)
  | .literal lv =>
      (match lv with
       | .undef => (.any, false, ∅)
       | .null => (.any, false, ∅)
       | lv => (.vliteral lv, false, ∅))
  | .enum vs => (convertEnumType vs, false, ∅)
  | .record val => convertRecordType env val visited
  | .transform _ => (.any, false, ∅)
  | .nullable inner => convertNullableType env inner visited
  | .ref i =>
      if hmem : i ∈ visited then (.any, false, ∅)
      else
        if hlt : i < env.length then
          let r := zodToConvexInternal env env[i] (insert i visited)
          (r.1, false, insert i r.2)
        else (.any, false, {i})
  | .optional _ => (.any, false, ∅)
  | .default _ _ => (.any, false, ∅)
  | .any => (.any, false, ∅)
  | .unknown => (.any, false, ∅)
termination_by (unvisitedCount env.length visited, sizeOf actual, 0)
decreasing_by
  all_goals first
    | decreasing_tactic
    | (simp_wf
       first
        | (exact unvisitedCount_insert_lt _ _ _ hlt hmem)
        | (exact Prod.Lex.left _ _ (unvisitedCount_insert_lt _ _ _ hlt hmem)))

/-- The object-shape traversal of the mapper (src/mapping/core.ts lines
123-138): each field is mapped with the shared visited set, which threads
left to right as the TS mutable `Set` does. -/
def mapFields (env : List ZSchema) (shape : List (String × ZSchema))
    (visited : Finset Nat) : List (String × CValidator) × Finset Nat :=
  match shape with
  | [] => ([], ∅)
  | (k, s) :: rest =>
      let r1 := zodToConvexInternal env s visited
      let r2 := mapFields env rest (r1.2 ∪ visited)
      ((k, r1.1) :: r2.1, r1.2 ∪ r2.2)
termination_by (unvisitedCount env.length visited, sizeOf shape, 2)
decreasing_by
  all_goals simp_wf
  all_goals first
    | (apply lex3_le_lt (unvisitedCount_union_le _ _ _) ?_ <;> first | omega | (simp <;> omega))
    | (apply lex3_le_lt (Nat.le_refl _) ?_ <;> first | omega | (simp <;> omega))
    | (apply lex3_le_eq_lt (Nat.le_refl _) rfl ?_ <;> first | omega | (simp <;> omega))

/-- Modelled from the spec: `convertUnionType` lives in
mapping/handlers.ts, which is not among the sources.  Per the spec a
union maps to the native union of the per-branch mapped validators; the
visited set threads through the branches. -/
def convertUnionType (env : List ZSchema) (opts : List ZSchema)
    (visited : Finset Nat) : List CValidator × Finset Nat :=
  match opts with
  | [] => ([], ∅)
  | o :: rest =>
      let r1 := zodToConvexInternal env o visited
      let r2 := convertUnionType env rest (r1.2 ∪ visited)
      (r1.1 :: r2.1, r1.2 ∪ r2.2)
termination_by (unvisitedCount env.length visited, sizeOf opts, 2)
decreasing_by
  all_goals simp_wf
  all_goals first
    | (apply lex3_le_lt (unvisitedCount_union_le _ _ _) ?_ <;> first | omega | (simp <;> omega))
    | (apply lex3_le_lt (Nat.le_refl _) ?_ <;> first | omega | (simp <;> omega))
    | (apply lex3_le_eq_lt (Nat.le_refl _) rfl ?_ <;> first | omega | (simp <;> omega))

/-- Modelled from the spec: `convertNullableType` lives in
mapping/handlers.ts, which is not among the sources.  Per the spec (and
the type-level mapper in the sources), a nullable maps to the union of
the mapped inner validator and `v.null()`, and a nullable whose inner
schema is optional additionally records optionality so the caller
flattens `nullable(optional(x))` to an optional union with null. -/
def convertNullableType (env : List ZSchema) (inner : ZSchema)
    (visited : Finset Nat) : CValidator × Bool × Finset Nat :=
  match inner with
  | .optional inner2 =>
      let r := zodToConvexInternal env inner2 visited
      (.vunion [r.1, .vnull], true, r.2)
  | inner =>
      let r := zodToConvexInternal env inner visited
      (.vunion [r.1, .vnull], false, r.2)
termination_by (unvisitedCount env.length visited, sizeOf inner, 2)

/-- Embeds `convertRecordType` (handlers source, unnamed part_001): a
record whose value schema is optional — directly or beneath a default
wrapper — maps to `v.record(v.string(), v.union(inner, v.null()))`, with
any default recorded as `_zodDefault` metadata on the union validator;
a non-optional value schema maps through `zodToConvexInternal`
unchanged.  (`ZodPrefault` is not modelled.) -/
def convertRecordType (env : List ZSchema) (val : ZSchema)
    (visited : Finset Nat) : CValidator × Bool × Finset Nat :=
  match val with
  | .default dv (.optional inner) =>
      let r := zodToConvexInternal env inner visited
      (.vrecord .vstring (.withDefault dv (.vunion [r.1, .vnull])), false, r.2)
  | .optional inner =>
      let r := zodToConvexInternal env inner visited
      (.vrecord .vstring (.vunion [r.1, .vnull]), false, r.2)
  | val =>
      let r := zodToConvexInternal env val visited
      (.vrecord .vstring r.1, false, r.2)
termination_by (unvisitedCount env.length visited, sizeOf val, 2)

end

/-- Embeds the `!zodValidator` guard at the top of `zodToConvexInternal`
(src/mapping/core.ts lines 26-28): an absent/undefined schema node (as in
`{ field: undefined }` args) yields `v.any()`. -/
def zodToConvexOpt (env : List ZSchema) (s : Option ZSchema) : CValidator :=
  match s with
  | none => .any
  | some s => (zodToConvexInternal env s ∅).1

/-- Embeds `zodToConvex` (src/mapping/core.ts lines 303-315) applied to a
single schema: a fresh traversal with an empty visited set. -/
def zodToConvex (env : List ZSchema) (s : ZSchema) : CValidator :=
  (zodToConvexInternal env s ∅).1

/-- Embeds `zodToConvexFields` (src/mapping/core.ts lines 317-330): each
field of a raw shape is mapped independently, each with a fresh visited
set (the TS code calls `zodToConvexInternal(value)` with the default
`new Set()` per field). -/
def zodToConvexFields (env : List ZSchema)
    (shape : List (String × ZSchema)) : List (String × CValidator) :=
  shape.map (fun p => (p.1, zodToConvex env p.2))

/-- Whether a mapped validator is marked optional (`v.optional`), looking
through the `_zodDefault` metadata wrapper, which is a property on the
validator object rather than part of its shape. -/
def isOptValidator : CValidator → Bool
  | .voptional _ => true
  | .withDefault _ inner => isOptValidator inner
  | _ => false

/-- The `_zodDefault` metadata recorded on a mapped validator, if any. -/
def defaultMeta : CValidator → Option JSValue
  | .withDefault dv _ => some dv
  | _ => none

/-- The schema shapes the mapper marks optional: an optional wrapper
(possibly under a default wrapper) or a nullable wrapper whose inner
schema is optional (possibly under a default wrapper). -/
def markedOptional : ZSchema → Bool
  | .optional _ => true
  | .nullable (.optional _) => true
  | .default _ (.optional _) => true
  | .default _ (.nullable (.optional _)) => true
  | _ => false

/-- Whether the schema is a lazy ref, possibly under a default wrapper:
for such schemas the mapper returns the resolved node's validator
verbatim, which may itself be optional regardless of the outer shape. -/
def lazyHeaded : ZSchema → Bool
  | .ref _ => true
  | .default _ (.ref _) => true
  | _ => false

/-- The default value the mapper records for `default dv inner`: a second
default nested directly under an optional overwrites the outer one
(src/mapping/core.ts lines 57-62). -/
def innerDefault (dv : JSValue) : ZSchema → JSValue
  | .optional (.default dv2 _) => dv2
  | _ => dv

/-- The record value schemas `convertRecordType` treats as optional:
an optional wrapper, possibly directly under a default wrapper
(handlers source, unnamed part_001 lines 26-31). -/
def recordValueOptional : ZSchema → Bool
  | .optional _ => true
  | .default _ (.optional _) => true
  | _ => false

/-- Context tags for validation errors (src/utils.ts line 24). -/
inductive ErrCtx where
  | args : ErrCtx
  | returns : ErrCtx
  | input : ErrCtx
  | output : ErrCtx
  | codec : ErrCtx
deriving DecidableEq

/-- One issue on a `ZodError`: a path of segments (numeric segments are
modelled already stringified), a machine-readable code and a
human-readable message. -/
structure ZodIssue where
  path : List String
  code : String
  message : String

/-- A `z.ZodError` as seen by the catch blocks: its ordered issues. -/
structure ZodError where
  issues : List ZodIssue

/-- One formatted issue (src/utils.ts lines 29-35): the path joined with
dots, plus code and message. -/
structure FormattedIssue where
  path : String
  code : String
  message : String

/-- The structured error payload built by `formatZodIssues`
(src/utils.ts lines 26-38): error kind tag, context tag and the ordered
formatted issues.  The `flatten` debugging snapshot is not modelled. -/
structure FormattedZodError where
  error : String
  context : Option ErrCtx
  issues : List FormattedIssue

/-- Embeds `formatZodIssues` (src/utils.ts lines 22-39). -/
def formatZodIssues (e : ZodError) (ctx : Option ErrCtx) : FormattedZodError :=
  { error := "ZodValidationError"
    context := ctx
    issues := e.issues.map (fun i =>
      { path := String.intercalate "." i.path
        code := i.code
        message := i.message }) }

/-- A thrown JS exception as seen by the catch blocks: either a ZodError
or any other exception (carrying an opaque description). -/
inductive ThrownError where
  | zod : ZodError → ThrownError
  | other : String → ThrownError

/-- An error surfaced to the Convex framework by the wrapper: a
`ConvexError` carrying the structured payload, or a rethrown non-Zod
exception. -/
inductive CallError where
  | convex : FormattedZodError → CallError
  | other : String → CallError

/-- Embeds `handleZodValidationError` (src/utils.ts lines 43-51): a
ZodError is thrown as a `ConvexError` with formatted issues and the given
context; anything else is rethrown unchanged. -/
def handleZodValidationError (e : ThrownError) (ctx : ErrCtx) : CallError :=
  match e with
  | .zod ze => .convex (formatZodIssues ze (some ctx))
  | .other m => .other m

/-- Embeds the wrapped handler produced by `zQuery` (src/builders.ts lines
471-492).  `parseArgs` and `parseReturns` model `zodSchema.parse` and
`options.returns.parse` — Zod is external, so their outcomes are
parameters.  The wrapper decodes the inbound wire arguments, parses them
(a failure becomes a structured error tagged `args`), runs the handler,
parses the result against the returns schema when one is declared (a
failure becomes a structured error tagged `returns`) and encodes it
schema-aware, and with no returns schema falls back to the one-argument
schema-agnostic conversion of the raw result. -/
def zQueryRun (argsSchema : ZSchema)
    (parseArgs : JSValue → Except ThrownError JSValue)
    (handler : JSValue → JSValue)
    (returnsOpt : Option (ZSchema × (JSValue → Except ThrownError JSValue)))
    (rawArgs : JSValue) : Except CallError JSValue :=
  match parseArgs (fromConvexJS rawArgs argsSchema) with
  | .error e => .error (handleZodValidationError e .args)
  | .ok parsed =>
      let raw := handler parsed
      match returnsOpt with
      | some (rs, parseReturns) =>
          (match parseReturns raw with
           | .error e => .error (handleZodValidationError e .returns)
           | .ok validated => .ok (toConvexJS rs validated))
      | none => .ok (toConvexJS1 raw)

/-- The runtime payload of the object `convexCodec` returns (src/codec.ts
lines 17-36): the derived validator and the encode/decode closures (the
`pick` method is modelled separately as `codecPick`). -/
structure ConvexCodec where
  validator : CValidator
  encode : JSValue → JSValue
  decode : JSValue → JSValue

/-- Embeds `convexCodec` (src/codec.ts lines 17-36). -/
def convexCodec (env : List ZSchema) (schema : ZSchema) : ConvexCodec :=
  { validator := zodToConvex env schema
    encode := fun v => toConvexJS schema v
    decode := fun v => fromConvexJS v schema }

/-- The two shapes `pick` accepts for its key selection (src/codec.ts
lines 24-31): an array of keys, or a record of boolean flags. -/
inductive PickKeys where
  | arr : List String → PickKeys
  | flags : List (String × Bool) → PickKeys

/-- Embeds the array normalization in `pick` (src/codec.ts lines 29-31):
an array is reduced to a record mapping each of its keys to `true`;
a record is used as-is. -/
def pickKeysToFlags : PickKeys → List (String × Bool)
  | .arr ks => ks.map (fun k => (k, true))
  | .flags fs => fs

/-- Modelled from Zod (external library): `schema.pick(mask)` keeps the
shape fields whose key the mask flags `true`. -/
def zodPick (shape : List (String × ZSchema)) (mask : List (String × Bool)) :
    List (String × ZSchema) :=
  shape.filter (fun p => mask.lookup p.1 == some true)

/-- Embeds the `pick` method of the codec (src/codec.ts lines 24-34): on a
non-object schema it throws an `Error` with the fixed message; on an
object schema it normalizes the keys, builds the picked sub-schema, and
returns the codec built from it. -/
def codecPick (env : List ZSchema) (schema : ZSchema) (keys : PickKeys) :
    Except String ConvexCodec :=
  match schema with
  | .object shape =>
      .ok (convexCodec env (.object (zodPick shape (pickKeysToFlags keys))))
  | _ => .error "pick() can only be called on object schemas"

mutual

/-- Wire-safe values: no date anywhere and no object entry bound to
`undefined` — exactly the values `basicToConvex` maps to themselves and
the decoder's generic passthrough returns intact. -/
def isWireSafe : JSValue → Bool
  | .date _ => false
  | .arr xs => isWireSafeList xs
  | .obj fields => isWireSafeFields fields
  | _ => true

/-- Element-wise wire-safety of an array. -/
def isWireSafeList : List JSValue → Bool
  | [] => true
  | x :: rest => isWireSafe x && isWireSafeList rest

/-- Field-wise wire-safety of an object: no `undefined` values. -/
def isWireSafeFields : List (String × JSValue) → Bool
  | [] => true
  | (_, v) :: rest =>
      (match v with
       | .undef => false
       | v => isWireSafe v) && isWireSafeFields rest

end

/-- Whether the keys of a shape are duplicate-free (Zod object shapes come
from JS object literals, which cannot repeat keys). -/
def keysNodup : List (String × ZSchema) → Bool
  | [] => true
  | (k, _) :: rest => !(rest.lookup k).isSome && keysNodup rest

/-- Whether every declared field of the shape is either present among the
value's fields or optional-ish (free to be absent). -/
def requiredPresent (fields : List (String × JSValue))
    (shape : List (String × ZSchema)) : Bool :=
  shape.all (fun p => (fields.lookup p.1).isSome || isOptionalish p.2)

mutual

/-- The conformance relation of the round-trip claim: `Conforms v s` says
`v` is a supported instance of schema `s` for which the spec promises
`decode(encode(s, v), s) = v`.  It mirrors `z.infer`: an object instance
carries exactly the declared fields (required ones present, optional ones
possibly absent, no extra keys, no `undefined`-bound keys, and the shape
itself duplicate-free); and, per the spec's documented ambiguous-union
exception, a union instance must conform to its first accepting branch
and must not be captured by any earlier declared branch after the
encode/decode round trip through that branch (`conformsUnion`).  Values
under `any`/`unknown`/lazy/unregistered-transform schemas must be
wire-safe (those schemas convert by `basicToConvex`/passthrough only),
and a date-classified transform carries a date value. -/
def Conforms : JSValue → ZSchema → Bool
  | .undef, s => zodAccepts s .undef
  | .null, s => zodAccepts s .null
  | v, .optional inner => Conforms v inner
  | v, .nullable inner => Conforms v inner
  | v, .default _ inner => Conforms v inner
  | .str _, .string => true
  | .num _, .number => true
  | .bool _, .boolean => true
  | .date _, .date => true
  | v, .literal lv => jsAtomEq v lv
  | .str x, .enum vs => vs.contains x
  | .arr xs, .array e => conformsList xs e
  | .obj fields, .object shape =>
      keysNodup shape && conformsFields fields shape && requiredPresent fields shape
  | .obj fields, .record val => conformsRec fields val
  | v, .union opts => conformsUnion v [] opts
  | .date _, .transform true => true
  | v, .transform false => isWireSafe v
  | v, .any => isWireSafe v
  | v, .unknown => isWireSafe v
  | v, .ref _ => isWireSafe v
  | _, _ => false
termination_by v s => (sizeOf v, sizeOf s)

/-- Element-wise conformance of an array instance. -/
def conformsList : List JSValue → ZSchema → Bool
  | [], _ => true
  | x :: rest, e => Conforms x e && conformsList rest e
termination_by xs e => (sizeOf xs, sizeOf e)

/-- Field-wise conformance of an object instance: every present field is
declared in the shape, is not `undefined`, and conforms to its declared
schema. -/
def conformsFields : List (String × JSValue) → List (String × ZSchema) → Bool
  | [], _ => true
  | (k, v) :: rest, shape =>
      (match v with
       | .undef => false
       | v =>
          (match shape.lookup k with
           | some s => Conforms v s
           | none => false)) && conformsFields rest shape
termination_by fields shape => (sizeOf fields, sizeOf shape)

/-- Entry-wise conformance of a record instance: no `undefined` values,
every value conforms to the record's value schema. -/
def conformsRec : List (String × JSValue) → ZSchema → Bool
  | [], _ => true
  | (_, v) :: rest, val =>
      (match v with
       | .undef => false
       | v => Conforms v val) && conformsRec rest val
termination_by fields val => (sizeOf fields, sizeOf val)

/-- Walks the declared branches of a union carrying the already-rejected
prefix `pre`: the instance conforms when its first accepting branch is
reached, conforms to it, and no earlier branch re-validates the value
decoded from the branch's encoding (the spec's no-ambiguity condition on
round-tripped union values). -/
def conformsUnion (v : JSValue) (pre : List ZSchema) : List ZSchema → Bool
  | [] => false
  | o :: rest =>
      if zodAccepts o v then
        Conforms v o &&
        pre.all (fun p => !(zodAccepts p (fromConvexJS (schemaToConvex v o) p)))
      else conformsUnion v (pre ++ [o]) rest
termination_by opts => (sizeOf v, sizeOf opts)

end

/-- The wrapper information `zodToConvexInternal` records before its type
switch (src/mapping/core.ts lines 37-63), as a function of the schema:
the recorded default (an inner default under an optional overwrites the
outer one), the recorded optionality, and the unwrapped core schema. -/
def unwrapInfo : ZSchema → Option JSValue × Bool × ZSchema
  | .default dv (.optional (.default dv2 inner)) => (some dv2, true, inner)
  | .default dv (.optional inner) => (some dv, true, inner)
  | .default dv inner => (some dv, false, inner)
  | .optional (.default dv2 inner) => (some dv2, true, inner)
  | .optional inner => (none, true, inner)
  | s => (none, false, s)

/-- Whether a schema's head is an optional wrapper. -/
def optionalHead : ZSchema → Bool
  | .optional _ => true
  | _ => false

/-- The encode union loop skips a prefix of rejecting branches and
recurses into the first accepting branch. -/
theorem schemaToConvexUnion_firstMatch (v : JSValue) (o : ZSchema) :
    ∀ pre rest, (∀ p ∈ pre, zodAccepts p v = false) → zodAccepts o v = true →
      schemaToConvexUnion v (pre ++ o :: rest) = schemaToConvex v o := by
  intro pre
  induction pre with
  | nil =>
      intro rest _ hacc
      simp [schemaToConvexUnion, hacc]
  | cons p ps ih =>
      intro rest hrej hacc
      have hp : zodAccepts p v = false := hrej p (by simp)
      simp only [List.cons_append, schemaToConvexUnion, hp]
      exact ih rest (fun q hq => hrej q (by simp [hq])) hacc

/-- When no branch accepts the value, the encode union loop falls through
to the schema-agnostic conversion. -/
theorem schemaToConvexUnion_none (v : JSValue) :
    ∀ opts, (∀ p ∈ opts, zodAccepts p v = false) →
      schemaToConvexUnion v opts = basicToConvex v := by
  intro opts
  induction opts with
  | nil => intro _; simp [schemaToConvexUnion]
  | cons p ps ih =>
      intro hrej
      have hp : zodAccepts p v = false := hrej p (by simp)
      simp only [schemaToConvexUnion, hp]
      exact ih (fun q hq => hrej q (by simp [hq]))

/-- A non-`undefined`, non-`null` value reaches the encode union loop. -/
theorem toConvexJS_union (v : JSValue) (opts : List ZSchema)
    (h1 : v ≠ .undef) (h2 : v ≠ .null) :
    toConvexJS (.union opts) v = schemaToConvexUnion v opts := by
  cases v <;> simp_all [toConvexJS, schemaToConvex]

/-- The decode union loop skips a prefix of branches whose decoded value
does not re-validate and returns the decoded value of the first branch
whose decoded value does. -/
theorem fromConvexJSUnion_firstMatch (v : JSValue) (o : ZSchema) :
    ∀ pre rest, (∀ p ∈ pre, zodAccepts p (fromConvexJS v p) = false) →
      zodAccepts o (fromConvexJS v o) = true →
      fromConvexJSUnion v (pre ++ o :: rest) = fromConvexJS v o := by
  intro pre
  induction pre with
  | nil =>
      intro rest _ hacc
      simp [fromConvexJSUnion, hacc]
  | cons p ps ih =>
      intro rest hrej hacc
      have hp := hrej p (by simp)
      simp only [List.cons_append, fromConvexJSUnion, hp]
      simp only [Bool.false_eq_true, if_false]
      exact ih rest (fun q hq => hrej q (by simp [hq])) hacc

/-- When no branch's decoded value re-validates, the decode union loop
falls through and passes the value through unchanged. -/
theorem fromConvexJSUnion_none (v : JSValue) :
    ∀ opts, (∀ p ∈ opts, zodAccepts p (fromConvexJS v p) = false) →
      fromConvexJSUnion v opts = v := by
  intro opts
  induction opts with
  | nil => intro _; simp [fromConvexJSUnion]
  | cons p ps ih =>
      intro hrej
      have hp := hrej p (by simp)
      simp only [fromConvexJSUnion, hp]
      simp only [Bool.false_eq_true, if_false]
      exact ih (fun q hq => hrej q (by simp [hq]))

/-- A non-`undefined`, non-`null` value reaches the decode union loop. -/
theorem fromConvexJS_union (v : JSValue) (opts : List ZSchema)
    (h1 : v ≠ .undef) (h2 : v ≠ .null) :
    fromConvexJS v (.union opts) = fromConvexJSUnion v opts := by
  cases v <;> simp_all [fromConvexJS]


mutual

/-- Wire-safe values are fixed points of the schema-agnostic conversion. -/
theorem basicToConvex_of_wireSafe :
    ∀ v : JSValue, isWireSafe v = true → basicToConvex v = v
  | .undef, _ => by simp [basicToConvex]
  | .null, _ => by simp [basicToConvex]
  | .bool b, _ => by simp [basicToConvex]
  | .num n, _ => by simp [basicToConvex]
  | .str s, _ => by simp [basicToConvex]
  | .date ms, h => by simp [isWireSafe] at h
  | .arr xs, h => by
      simp only [basicToConvex]
      rw [basicToConvexList_of_wireSafe xs (by simpa [isWireSafe] using h)]
  | .obj fields, h => by
      simp only [basicToConvex]
      rw [basicToConvexFields_of_wireSafe fields (by simpa [isWireSafe] using h)]
termination_by v _ => sizeOf v

/-- Element-wise version of `basicToConvex_of_wireSafe`. -/
theorem basicToConvexList_of_wireSafe :
    ∀ xs : List JSValue, isWireSafeList xs = true → basicToConvexList xs = xs
  | [], _ => by simp [basicToConvexList]
  | x :: rest, h => by
      have h1 : isWireSafe x = true := by
        have := h
        simp [isWireSafeList] at this
        exact this.1
      have h2 : isWireSafeList rest = true := by
        have := h
        simp [isWireSafeList] at this
        exact this.2
      simp only [basicToConvexList]
      rw [basicToConvex_of_wireSafe x h1, basicToConvexList_of_wireSafe rest h2]
termination_by xs _ => sizeOf xs

/-- Field-wise version of `basicToConvex_of_wireSafe`: with no
`undefined` values nothing is dropped. -/
theorem basicToConvexFields_of_wireSafe :
    ∀ fields : List (String × JSValue), isWireSafeFields fields = true →
      basicToConvexFields fields = fields
  | [], _ => by simp [basicToConvexFields]
  | (k, v) :: rest, h => by
      cases v
      case undef => simp [isWireSafeFields] at h
      all_goals
        simp only [isWireSafeFields] at h
        rw [Bool.and_eq_true] at h
        simp only [basicToConvexFields]
        rw [basicToConvex_of_wireSafe _ h.1,
          basicToConvexFields_of_wireSafe rest h.2]
termination_by fields _ => sizeOf fields

end

/-- Claim C4 (counterexample to the claim as stated): for the union
schema `[string, boolean]` and the date value at epoch 0, no branch
accepts, and encode does NOT pass the value through unconverted — the
fallback is the schema-agnostic basic conversion, which turns the date
into the number 0. -/
theorem claim_C4_counterexample :
    toConvexJS (.union [.string, .boolean]) (.date 0) = .num 0 ∧
    JSValue.num 0 ≠ JSValue.date 0 := by
  constructor
  · simp [toConvexJS, schemaToConvex, schemaToConvexUnion, zodAccepts,
      basicToConvex]
  · simp

/-- Claim C4 (amended): for a union schema, encode attempts each branch's
validation against the value in declaration order and recurses into the
first branch that accepts it; if no branch accepts, the value falls back
to the schema-agnostic basic conversion (dates become numbers,
`undefined`-valued object keys are dropped, wire-safe values pass through
unchanged) rather than schema-driven recursion; decode attempts each
branch's decode in declaration order and returns the decoded result of
the first branch against which the decoded value re-validates, and
passes the value through unchanged when no branch's decoded value
re-validates. -/
theorem claim_C4_union_order :
    (∀ (v : JSValue) (pre : List ZSchema) (o : ZSchema) (rest : List ZSchema),
        v ≠ .undef → v ≠ .null →
        (∀ p ∈ pre, zodAccepts p v = false) → zodAccepts o v = true →
        toConvexJS (.union (pre ++ o :: rest)) v = schemaToConvex v o) ∧
    (∀ (v : JSValue) (opts : List ZSchema), v ≠ .undef → v ≠ .null →
        (∀ p ∈ opts, zodAccepts p v = false) →
        toConvexJS (.union opts) v = basicToConvex v) ∧
    (∀ (v : JSValue), isWireSafe v = true → basicToConvex v = v) ∧
    (∀ (v : JSValue) (pre : List ZSchema) (o : ZSchema) (rest : List ZSchema),
        v ≠ .undef → v ≠ .null →
        (∀ p ∈ pre, zodAccepts p (fromConvexJS v p) = false) →
        zodAccepts o (fromConvexJS v o) = true →
        fromConvexJS v (.union (pre ++ o :: rest)) = fromConvexJS v o) ∧
    (∀ (v : JSValue) (opts : List ZSchema), v ≠ .undef → v ≠ .null →
        (∀ p ∈ opts, zodAccepts p (fromConvexJS v p) = false) →
        fromConvexJS v (.union opts) = v) := by
  refine ⟨?_, ?_, ?_, ?_, ?_⟩
  · intro v pre o rest h1 h2 hrej hacc
    rw [toConvexJS_union v _ h1 h2]
    exact schemaToConvexUnion_firstMatch v o pre rest hrej hacc
  · intro v opts h1 h2 hrej
    rw [toConvexJS_union v _ h1 h2]
    exact schemaToConvexUnion_none v opts hrej
  · exact basicToConvex_of_wireSafe
  · intro v pre o rest h1 h2 hrej hacc
    rw [fromConvexJS_union v _ h1 h2]
    exact fromConvexJSUnion_firstMatch v o pre rest hrej hacc
  · intro v opts h1 h2 hrej
    rw [fromConvexJS_union v _ h1 h2]
    exact fromConvexJSUnion_none v opts hrej

/-- Witness for claim C4: at the union `[string, number]` and value 7 the
first branch rejects and the second accepts, so encode recurses into the
number branch. -/
theorem claim_C4_union_order_witness :
    toConvexJS (.union [.string, .number]) (.num 7) =
      schemaToConvex (.num 7) .number :=
  claim_C4_union_order.1 (.num 7) [.string] .number []
    (by simp) (by simp)
    (by
      intro p hp
      simp only [List.mem_singleton] at hp
      subst hp
      simp [zodAccepts])
    (by simp [zodAccepts])

/-- Claim C7: the date value 2024-01-01T00:00:00.000Z (epoch milliseconds
1704067200000) encodes to the integer 1704067200000 and decodes back to
the same date; in general, a date value under any date-classified schema
(a `ZodDate`, or a brand/transform wrapper recognized by `isDateSchema`)
encodes to its epoch milliseconds, and a numeric value under such a
schema decodes back to the date. -/
theorem claim_C7_date_codec :
    toConvexJS .date (.date 1704067200000) = .num 1704067200000 ∧
    fromConvexJS (.num 1704067200000) .date = .date 1704067200000 ∧
    (∀ ms : Int, toConvexJS .date (.date ms) = .num ms) ∧
    (∀ ms : Int, fromConvexJS (.num ms) .date = .date ms) ∧
    (∀ (s : ZSchema) (ms : Int), isDateSchema s = true →
        toConvexJS s (.date ms) = .num ms) ∧
    (∀ (s : ZSchema) (ms : Int), isDateSchema s = true →
        fromConvexJS (.num ms) s = .date ms) := by
  refine ⟨?_, ?_, ?_, ?_, ?_, ?_⟩
  · simp [toConvexJS, schemaToConvex]
  · simp [fromConvexJS]
  · intro ms; simp [toConvexJS, schemaToConvex]
  · intro ms; simp [fromConvexJS]
  · intro s ms h
    cases s <;> simp [isDateSchema] at h
    subst h
    simp [toConvexJS, schemaToConvex, basicToConvex]
  · intro s ms h
    cases s <;> simp [isDateSchema] at h
    subst h
    simp [fromConvexJS]

/-- Witness for claim C7: a registered date-bearing transform schema
decodes the number 42 to the date at epoch-millisecond 42. -/
theorem claim_C7_date_codec_witness :
    isDateSchema (.transform true) = true ∧
    fromConvexJS (.num 42) (.transform true) = .date 42 :=
  ⟨rfl, claim_C7_date_codec.2.2.2.2.2 (.transform true) 42 rfl⟩

/-- Claim C8: encode and decode recurse field-wise over an object using
the schema's field map; a field absent from the shape is converted by the
schema-agnostic deep conversion on encode and passed through unchanged on
decode rather than being rejected; `undefined`-valued keys are dropped on
encode (the schema-agnostic path sends {a: 1, b: undefined} to {a: 1}),
so unknown extra wire-safe fields round-trip. -/
theorem claim_C8_object_fieldwise :
    (∀ shape fields, toConvexJS (.object shape) (.obj fields) =
        .obj (schemaToConvexObj fields shape)) ∧
    (∀ shape fields, fromConvexJS (.obj fields) (.object shape) =
        .obj (fromConvexJSObj fields shape)) ∧
    (∀ shape k v rest s, v ≠ .undef → shape.lookup k = some s →
        schemaToConvexObj ((k, v) :: rest) shape =
          (k, schemaToConvex v s) :: schemaToConvexObj rest shape) ∧
    (∀ shape k v rest, v ≠ .undef → shape.lookup k = none →
        schemaToConvexObj ((k, v) :: rest) shape =
          (k, basicToConvex v) :: schemaToConvexObj rest shape) ∧
    (∀ shape k rest, schemaToConvexObj ((k, .undef) :: rest) shape =
        schemaToConvexObj rest shape) ∧
    (∀ shape k v rest s, shape.lookup k = some s →
        fromConvexJSObj ((k, v) :: rest) shape =
          (k, fromConvexJS v s) :: fromConvexJSObj rest shape) ∧
    (∀ shape k v rest, shape.lookup k = none →
        fromConvexJSObj ((k, v) :: rest) shape =
          (k, v) :: fromConvexJSObj rest shape) ∧
    toConvexJS1 (.obj [("a", .num 1), ("b", .undef)]) = .obj [("a", .num 1)] ∧
    (fromConvexJS
        (toConvexJS (.object [("a", .number)])
          (.obj [("a", .num 1), ("extra", .str "x")]))
        (.object [("a", .number)]) =
      .obj [("a", .num 1), ("extra", .str "x")]) := by
  refine ⟨?_, ?_, ?_, ?_, ?_, ?_, ?_, ?_, ?_⟩
  · intro shape fields; simp [toConvexJS, schemaToConvex]
  · intro shape fields; simp [fromConvexJS]
  · intro shape k v rest s hv hl
    cases v
    case undef => exact absurd rfl hv
    all_goals simp only [schemaToConvexObj, hl]
  · intro shape k v rest hv hl
    cases v
    case undef => exact absurd rfl hv
    all_goals simp only [schemaToConvexObj, hl]
  · intro shape k rest; simp [schemaToConvexObj]
  · intro shape k v rest s hl
    simp [fromConvexJSObj, hl]
  · intro shape k v rest hl
    simp [fromConvexJSObj, hl]
  · simp [toConvexJS1, basicToConvex, basicToConvexFields]
  · simp [toConvexJS, fromConvexJS, schemaToConvex, fromConvexJS,
      schemaToConvexObj, fromConvexJSObj, basicToConvex, List.lookup]

/-- Witness for claim C8: a field declared in the shape is encoded
schema-aware while an undeclared one falls back to the basic conversion. -/
theorem claim_C8_object_fieldwise_witness :
    schemaToConvexObj [("a", .date 3)] [("a", .date)] =
      [("a", schemaToConvex (.date 3) .date)] ∧
    schemaToConvexObj [("x", .date 3)] [("a", .date)] =
      [("x", basicToConvex (.date 3))] := by
  constructor
  · rw [claim_C8_object_fieldwise.2.2.1 [("a", .date)] "a" (.date 3) [] .date
      (by simp) (by simp [List.lookup])]
    simp [schemaToConvexObj]
  · rw [claim_C8_object_fieldwise.2.2.2.1 [("a", .date)] "x" (.date 3) []
      (by simp) (by simp [List.lookup])]
    simp [schemaToConvexObj]

/-- Claim C10: `pick` on a codec whose schema is not an object throws the
fixed error message; on an object schema it accepts the keys either as an
array (normalized to true-flags) or as a record of flags, and returns the
codec built from the picked sub-schema. -/
theorem claim_C10_codec_pick :
    (∀ env s keys, (∀ shape, s ≠ .object shape) →
        codecPick env s keys =
          .error "pick() can only be called on object schemas") ∧
    (∀ env shape keys, codecPick env (.object shape) keys =
        .ok (convexCodec env
          (.object (zodPick shape (pickKeysToFlags keys))))) ∧
    (∀ env shape ks, codecPick env (.object shape) (.arr ks) =
        codecPick env (.object shape)
          (.flags (ks.map (fun k => (k, true))))) := by
  refine ⟨?_, ?_, ?_⟩
  · intro env s keys hne
    cases s <;> first
      | rfl
      | exact absurd rfl (hne _)
  · intro env shape keys; rfl
  · intro env shape ks; rfl

/-- Witness for claim C10: picking on a string-schema codec yields the
fixed error. -/
theorem claim_C10_codec_pick_witness :
    codecPick [] .string (.arr ["a"]) =
      .error "pick() can only be called on object schemas" :=
  claim_C10_codec_pick.1 [] .string (.arr ["a"])
    (by intro shape h; cases h)

/-- Claim C9: when the wrapper's parse step rejects the decoded inbound
arguments, or rejects the handler's result against the declared returns
schema, the call surfaces (never swallows) a `ConvexError` whose payload
carries the error kind tag "ZodValidationError", the context tag `args`
or `returns` respectively, and the ordered issues each formatted with a
dotted field path, the machine-readable code and the human-readable
message. -/
theorem claim_C9_structured_errors :
    (∀ (argsSchema : ZSchema) parseArgs handler returnsOpt rawArgs
        (ze : ZodError),
        parseArgs (fromConvexJS rawArgs argsSchema) =
          Except.error (.zod ze) →
        zQueryRun argsSchema parseArgs handler returnsOpt rawArgs =
          Except.error (.convex
            { error := "ZodValidationError"
              context := some .args
              issues := ze.issues.map (fun i =>
                { path := String.intercalate "." i.path
                  code := i.code
                  message := i.message }) })) ∧
    (∀ (argsSchema : ZSchema) parseArgs handler (rs : ZSchema) parseReturns
        rawArgs parsed (ze : ZodError),
        parseArgs (fromConvexJS rawArgs argsSchema) = Except.ok parsed →
        parseReturns (handler parsed) = Except.error (.zod ze) →
        zQueryRun argsSchema parseArgs handler (some (rs, parseReturns))
            rawArgs =
          Except.error (.convex
            { error := "ZodValidationError"
              context := some .returns
              issues := ze.issues.map (fun i =>
                { path := String.intercalate "." i.path
                  code := i.code
                  message := i.message }) })) := by
  constructor
  · intro argsSchema parseArgs handler returnsOpt rawArgs ze h
    simp [zQueryRun, h, handleZodValidationError, formatZodIssues]
  · intro argsSchema parseArgs handler rs parseReturns rawArgs parsed ze h1 h2
    simp [zQueryRun, h1, h2, handleZodValidationError, formatZodIssues]

/-- Witness for claim C9: a parse failure with one issue at path
user.name surfaces as the structured args-tagged error. -/
theorem claim_C9_structured_errors_witness :
    zQueryRun .string
        (fun _ => Except.error (.zod
          ⟨[⟨["user", "name"], "invalid_type", "Required"⟩]⟩))
        (fun v => v) none (.str "x") =
      Except.error (.convex
        { error := "ZodValidationError"
          context := some .args
          issues := [⟨"user.name", "invalid_type", "Required"⟩] }) := by
  rw [claim_C9_structured_errors.1 .string _ (fun v => v) none (.str "x")
    ⟨[⟨["user", "name"], "invalid_type", "Required"⟩]⟩ rfl]
  norm_num [String.intercalate, String.intercalate.go]
  rfl

/-- The traversal factors as: record wrapper info, dispatch the unwrapped
core through the type switch, then apply optionality and metadata. -/
theorem zodToConvexInternal_eq (env : List ZSchema) (s : ZSchema)
    (vis : Finset Nat) :
    zodToConvexInternal env s vis =
      finishValidator (unwrapInfo s).1 (unwrapInfo s).2.1
        (mapCore env (unwrapInfo s).2.2 vis) := by
  cases s
  case default dv inner =>
    cases inner
    case optional inner2 =>
      cases inner2 <;> simp [zodToConvexInternal, unwrapInfo]
    all_goals simp [zodToConvexInternal, unwrapInfo]
  case optional inner =>
    cases inner <;> simp [zodToConvexInternal, unwrapInfo]
  all_goals simp [zodToConvexInternal, unwrapInfo]

/-- An enum validator is never optional. -/
theorem isOpt_convertEnumType (vs : List String) :
    isOptValidator (convertEnumType vs) = false := by
  match vs with
  | [] => simp [convertEnumType, isOptValidator]
  | [v] => simp [convertEnumType, isOptValidator]
  | v :: w :: rest => simp [convertEnumType, isOptValidator]

/-- A record validator is never optional and the record handler never
records extra optionality. -/
theorem convertRecordType_shape (env : List ZSchema) (val : ZSchema)
    (vis : Finset Nat) :
    isOptValidator ((convertRecordType env val vis).1) = false ∧
    (convertRecordType env val vis).2.1 = false := by
  cases val
  case default dv inner =>
    cases inner <;> simp [convertRecordType, isOptValidator]
  all_goals simp [convertRecordType, isOptValidator]

/-- A nullable validator is a union (never optional itself), and the
nullable handler records extra optionality exactly when the inner schema
is an optional wrapper. -/
theorem convertNullableType_shape (env : List ZSchema) (inner : ZSchema)
    (vis : Finset Nat) :
    isOptValidator ((convertNullableType env inner vis).1) = false ∧
    (convertNullableType env inner vis).2.1 = optionalHead inner := by
  cases inner <;> simp [convertNullableType, isOptValidator, optionalHead]

/-- The type switch never returns an optional validator except when the
unwrapped core is a lazy ref (whose resolved validator is returned
verbatim). -/
theorem isOpt_mapCore (env : List ZSchema) (actual : ZSchema)
    (vis : Finset Nat) (h : ∀ i, actual ≠ .ref i) :
    isOptValidator ((mapCore env actual vis).1) = false := by
  cases actual
  case ref i => exact absurd rfl (h i)
  case literal lv =>
    cases lv <;> simp [mapCore, isOptValidator]
  case enum vs =>
    simp [mapCore, isOpt_convertEnumType]
  case record val =>
    simp [mapCore, (convertRecordType_shape env val vis).1]
  case nullable inner =>
    simp [mapCore, (convertNullableType_shape env inner vis).1]
  all_goals simp [mapCore, isOptValidator]

/-- The extra optionality recorded by the type switch comes only from the
nullable handler. -/
theorem mapCore_snd (env : List ZSchema) (actual : ZSchema)
    (vis : Finset Nat) (h : ∀ i, actual ≠ .ref i) :
    (mapCore env actual vis).2.1 =
      (match actual with
       | .nullable inner => optionalHead inner
       | _ => false) := by
  cases actual
  case ref i => exact absurd rfl (h i)
  case literal lv =>
    cases lv <;> simp [mapCore]
  case record val =>
    simp [mapCore, (convertRecordType_shape env val vis).2]
  case nullable inner =>
    simp [mapCore, (convertNullableType_shape env inner vis).2]
  all_goals simp [mapCore]

/-- Optionality of the finished validator: recorded optionality, the
nullable handler's extra optionality, or optionality of the core
validator itself. -/
theorem isOpt_finishValidator (dflt : Option JSValue) (isOpt : Bool)
    (r : CValidator × Bool × Finset Nat) :
    isOptValidator ((finishValidator dflt isOpt r).1) =
      (isOpt || r.2.1 || isOptValidator r.1) := by
  cases dflt <;> cases isOpt <;> cases h : r.2.1 <;>
    simp [finishValidator, isOptValidator, h]

/-- A schema the mapper marks optional yields an optional validator. -/
theorem isOpt_marked (env : List ZSchema) (s : ZSchema) (vis : Finset Nat)
    (h : markedOptional s = true) :
    isOptValidator ((zodToConvexInternal env s vis).1) = true := by
  rw [zodToConvexInternal_eq, isOpt_finishValidator]
  cases s
  case optional x =>
    have hu : (unwrapInfo (.optional x)).2.1 = true := by
      cases x <;> simp [unwrapInfo]
    simp [hu]
  case nullable x =>
    cases x
    case optional y =>
      simp [unwrapInfo, mapCore,
        (convertNullableType_shape env (.optional y) vis).2, optionalHead]
    all_goals simp [markedOptional] at h
  case default dv x =>
    cases x
    case optional y =>
      have hu : (unwrapInfo (.default dv (.optional y))).2.1 = true := by
        cases y <;> simp [unwrapInfo]
      simp [hu]
    case nullable y =>
      cases y
      case optional z =>
        simp [unwrapInfo, mapCore,
          (convertNullableType_shape env (.optional z) vis).2, optionalHead]
      all_goals simp [markedOptional] at h
    all_goals simp [markedOptional] at h
  all_goals simp [markedOptional] at h

/-- A schema the mapper does not mark optional, and that is not a lazy
ref (possibly under a default), yields a required validator. -/
theorem isOpt_not_marked (env : List ZSchema) (s : ZSchema) (vis : Finset Nat)
    (h1 : markedOptional s = false) (h2 : lazyHeaded s = false) :
    isOptValidator ((zodToConvexInternal env s vis).1) = false := by
  rw [zodToConvexInternal_eq, isOpt_finishValidator]
  cases s
  case optional x => simp [markedOptional] at h1
  case ref i => simp [lazyHeaded] at h2
  case nullable x =>
    cases x
    case optional y => simp [markedOptional] at h1
    all_goals
      simp only [unwrapInfo]
      rw [isOpt_mapCore env _ vis (by intro i hh; simp at hh),
        mapCore_snd env _ vis (by intro i hh; simp at hh)]
      simp [optionalHead]
  case default dv x =>
    cases x
    case optional y => simp [markedOptional] at h1
    case ref i => simp [lazyHeaded] at h2
    case nullable y =>
      cases y
      case optional z => simp [markedOptional] at h1
      all_goals
        simp only [unwrapInfo]
        rw [isOpt_mapCore env _ vis (by intro i hh; simp at hh),
          mapCore_snd env _ vis (by intro i hh; simp at hh)]
        simp [optionalHead]
    all_goals
      simp only [unwrapInfo]
      rw [isOpt_mapCore env _ vis (by intro i hh; simp at hh),
        mapCore_snd env _ vis (by intro i hh; simp at hh)]
      simp [optionalHead]
  all_goals
    simp only [unwrapInfo]
    rw [isOpt_mapCore env _ vis (by intro i hh; simp at hh),
      mapCore_snd env _ vis (by intro i hh; simp at hh)]
    simp [optionalHead]

/-- Claim C3: in an object schema, every field the schema marks optional
maps to an optional validator field and every non-optional field (that is
not a lazy ref, whose resolution is returned verbatim) maps to a required
one, with field names preserved in order; and a nullable wrapper whose
inner schema is optional flattens to a single optional validator over the
union of the inner validator and null. -/
theorem claim_C3_optionality :
    (∀ env shape vis, List.Forall₂
        (fun (p : String × ZSchema) (q : String × CValidator) =>
          q.1 = p.1 ∧
          (markedOptional p.2 = true → isOptValidator q.2 = true) ∧
          (markedOptional p.2 = false → lazyHeaded p.2 = false →
            isOptValidator q.2 = false))
        shape (mapFields env shape vis).1) ∧
    (∀ env x vis, zodToConvexInternal env (.nullable (.optional x)) vis =
        (.voptional (.vunion [(zodToConvexInternal env x vis).1, .vnull]),
          (zodToConvexInternal env x vis).2)) := by
  constructor
  · intro env shape
    induction shape with
    | nil => intro vis; simp [mapFields]
    | cons p rest ih =>
        intro vis
        obtain ⟨k, s⟩ := p
        simp only [mapFields]
        exact List.Forall₂.cons
          ⟨rfl, fun hm => isOpt_marked env s vis hm,
            fun hm hl => isOpt_not_marked env s vis hm hl⟩
          (ih _)
  · intro env x vis
    simp [zodToConvexInternal, mapCore, convertNullableType, finishValidator]

/-- Witness for claim C3: `nullable(optional(string))` flattens to an
optional union with null, and the single optional field of a one-field
shape maps to an optional validator. -/
theorem claim_C3_optionality_witness :
    (zodToConvexInternal [] (.nullable (.optional .string)) ∅ =
      (.voptional (.vunion [(zodToConvexInternal [] .string ∅).1, .vnull]),
        (zodToConvexInternal [] .string ∅).2)) ∧
    isOptValidator ((zodToConvexInternal [] (.optional .number) ∅).1) = true := by
  refine ⟨claim_C3_optionality.2 [] .string ∅, ?_⟩
  have h := claim_C3_optionality.1 [] [("n", .optional .number)] ∅
  have hm : (mapFields [] [("n", ZSchema.optional .number)] ∅).1 =
      [("n", (zodToConvexInternal [] (.optional .number) ∅).1)] := by
    simp [mapFields]
  rw [hm] at h
  rcases h with _ | ⟨⟨-, h2, -⟩, -⟩
  exact h2 rfl

/-- The default metadata attached by `finishValidator` is the recorded
default. -/
theorem defaultMeta_finishValidator (dv : JSValue) (isOpt : Bool)
    (r : CValidator × Bool × Finset Nat) :
    defaultMeta ((finishValidator (some dv) isOpt r).1) = some dv := by
  cases isOpt <;> cases h : r.2.1 <;>
    simp [finishValidator, defaultMeta, h]

/-- Claim C5: a default-wrapped field maps to required-with-metadata:
the recorded default value is attached out-of-band as the `_zodDefault`
side channel (an inner default directly under an optional overwrites the
outer one, per the source), and the validator is not marked optional on
account of the default — it is optional only when the schema is marked
optional anyway (and the inner schema is not a lazy ref, whose resolved
validator is returned verbatim). -/
theorem claim_C5_default_metadata :
    (∀ env (dv : JSValue) inner vis,
        defaultMeta ((zodToConvexInternal env (.default dv inner) vis).1) =
          some (innerDefault dv inner)) ∧
    (∀ env (dv : JSValue) inner vis,
        markedOptional (.default dv inner) = false →
        lazyHeaded (.default dv inner) = false →
        isOptValidator
          ((zodToConvexInternal env (.default dv inner) vis).1) = false) := by
  constructor
  · intro env dv inner vis
    rw [zodToConvexInternal_eq]
    cases inner
    case optional y =>
      cases y <;> simp [unwrapInfo, innerDefault, defaultMeta_finishValidator]
    all_goals simp [unwrapInfo, innerDefault, defaultMeta_finishValidator]
  · intro env dv inner vis h1 h2
    exact isOpt_not_marked env _ vis h1 h2

/-- Witness for claim C5: `z.number().default(5)` maps to a required
float64 validator carrying `_zodDefault = 5`. -/
theorem claim_C5_default_metadata_witness :
    defaultMeta ((zodToConvexInternal [] (.default (.num 5) .number) ∅).1) =
      some (.num 5) ∧
    isOptValidator
      ((zodToConvexInternal [] (.default (.num 5) .number) ∅).1) = false :=
  ⟨claim_C5_default_metadata.1 [] (.num 5) .number ∅,
   claim_C5_default_metadata.2 [] (.num 5) .number ∅ rfl rfl⟩

/-- Claim C6: a record schema whose value schema is optional — directly
or under a default wrapper — maps to a record validator with string keys
whose value validator is the union of the mapped inner validator and
null (never an optional value validator), with any default preserved as
`_zodDefault` metadata on that union; a record with a non-optional value
schema maps to `v.record(v.string(), toValidator(valueSchema))`. -/
theorem claim_C6_record_mapping :
    (∀ env x vis, zodToConvexInternal env (.record (.optional x)) vis =
        (.vrecord .vstring
            (.vunion [(zodToConvexInternal env x vis).1, .vnull]),
          (zodToConvexInternal env x vis).2)) ∧
    (∀ env (dv : JSValue) x vis,
        zodToConvexInternal env (.record (.default dv (.optional x))) vis =
          (.vrecord .vstring
              (.withDefault dv
                (.vunion [(zodToConvexInternal env x vis).1, .vnull])),
            (zodToConvexInternal env x vis).2)) ∧
    (∀ env val vis, recordValueOptional val = false →
        zodToConvexInternal env (.record val) vis =
          (.vrecord .vstring ((zodToConvexInternal env val vis).1),
            (zodToConvexInternal env val vis).2)) := by
  refine ⟨?_, ?_, ?_⟩
  · intro env x vis
    simp [zodToConvexInternal, mapCore, convertRecordType, finishValidator]
  · intro env dv x vis
    simp [zodToConvexInternal, mapCore, convertRecordType, finishValidator]
  · intro env val vis h
    cases val
    case optional y => simp [recordValueOptional] at h
    case default dv y =>
      cases y
      case optional z => simp [recordValueOptional] at h
      all_goals
        simp [zodToConvexInternal, mapCore, convertRecordType, finishValidator]
    all_goals
      simp [zodToConvexInternal, mapCore, convertRecordType, finishValidator]

/-- Witness for claim C6: `z.record(z.number().optional())` maps to
`v.record(v.string(), v.union(v.float64(), v.null()))`, and a record of
plain strings maps through unchanged. -/
theorem claim_C6_record_mapping_witness :
    (zodToConvexInternal [] (.record (.optional .number)) ∅ =
      (.vrecord .vstring
          (.vunion [(zodToConvexInternal [] .number ∅).1, .vnull]),
        (zodToConvexInternal [] .number ∅).2)) ∧
    (zodToConvexInternal [] (.record .string) ∅ =
      (.vrecord .vstring ((zodToConvexInternal [] .string ∅).1),
        (zodToConvexInternal [] .string ∅).2)) :=
  ⟨claim_C6_record_mapping.1 [] .number ∅,
   claim_C6_record_mapping.2.2 [] .string ∅ rfl⟩

/-- Claim C2: the mapper's traversal of self-referential (lazy) schema
trees terminates by construction (`zodToConvexInternal` is a total
function) and the cycle guard behaves as specified: a shared node already
in the per-call visited set yields the accept-anything validator, an
absent/empty schema node yields accept-anything, a lazy node whose
resolution fails (out-of-range getter) yields accept-anything, a fresh
in-range lazy node resolves exactly once and recurses with the node
marked visited (so it can resolve at most once per traversal path), and
the canonical self-referential object maps to an object validator whose
cyclic field degrades to accept-anything. -/
theorem claim_C2_lazy_cycle_guard :
    (∀ env (i : Nat) vis, i ∈ vis →
        zodToConvexInternal env (.ref i) vis = (.any, ∅)) ∧
    (∀ env, zodToConvexOpt env none = .any) ∧
    (∀ env (i : Nat) vis, i ∉ vis → env.length ≤ i →
        zodToConvexInternal env (.ref i) vis = (.any, {i})) ∧
    (∀ env (i : Nat) vis (hlt : i < env.length), i ∉ vis →
        zodToConvexInternal env (.ref i) vis =
          ((zodToConvexInternal env env[i] (insert i vis)).1,
            insert i (zodToConvexInternal env env[i] (insert i vis)).2)) ∧
    zodToConvex [.object [("next", .ref 0)]] (.ref 0) =
      .vobject [("next", .any)] := by
  refine ⟨?_, ?_, ?_, ?_, ?_⟩
  · intro env i vis hmem
    simp [zodToConvexInternal, mapCore, finishValidator, hmem]
  · intro env; rfl
  · intro env i vis hmem hge
    simp [zodToConvexInternal, mapCore, finishValidator, hmem,
      Nat.not_lt.mpr hge]
  · intro env i vis hlt hmem
    simp [zodToConvexInternal, mapCore, finishValidator, hmem, hlt]
  · simp [zodToConvex, zodToConvexInternal, mapCore, finishValidator,
      mapFields]

/-- Witness for claim C2: re-entering shared node 0 yields accept-anything
and an out-of-range lazy resolution falls back to accept-anything. -/
theorem claim_C2_lazy_cycle_guard_witness :
    zodToConvexInternal [] (.ref 0) {0} = (.any, ∅) ∧
    zodToConvexInternal [] (.ref 5) ∅ = (.any, {5}) :=
  ⟨claim_C2_lazy_cycle_guard.1 [] 0 {0} (by simp),
   claim_C2_lazy_cycle_guard.2.2.1 [] 5 ∅ (by simp) (by simp)⟩

/-- The schema-agnostic conversion never produces `undefined` or `null`
from a value that is neither. -/
theorem basic_ne (v : JSValue) (h1 : v ≠ .undef) (h2 : v ≠ .null) :
    basicToConvex v ≠ .undef ∧ basicToConvex v ≠ .null := by
  cases v <;> simp_all [basicToConvex]

/-- Conformance looks through an optional wrapper on non-`undefined`,
non-`null` values. -/
theorem Conforms_optional (v : JSValue) (i : ZSchema)
    (h1 : v ≠ .undef) (h2 : v ≠ .null) :
    Conforms v (.optional i) = Conforms v i := by
  cases v <;> simp_all [Conforms]

/-- Conformance looks through a nullable wrapper on non-`undefined`,
non-`null` values. -/
theorem Conforms_nullable (v : JSValue) (i : ZSchema)
    (h1 : v ≠ .undef) (h2 : v ≠ .null) :
    Conforms v (.nullable i) = Conforms v i := by
  cases v <;> simp_all [Conforms]

/-- Conformance looks through a default wrapper on non-`undefined`,
non-`null` values. -/
theorem Conforms_default (v : JSValue) (dv : JSValue) (i : ZSchema)
    (h1 : v ≠ .undef) (h2 : v ≠ .null) :
    Conforms v (.default dv i) = Conforms v i := by
  cases v <;> simp_all [Conforms]

/-- Conformance to a union on non-`undefined`, non-`null` values is the
branch walk. -/
theorem Conforms_union (v : JSValue) (opts : List ZSchema)
    (h1 : v ≠ .undef) (h2 : v ≠ .null) :
    Conforms v (.union opts) = conformsUnion v [] opts := by
  cases v <;> simp_all [Conforms]

/-- Conformance to a literal on non-`undefined`, non-`null` values is the
strict primitive equality. -/
theorem Conforms_literal (v lv : JSValue)
    (h1 : v ≠ .undef) (h2 : v ≠ .null) :
    Conforms v (.literal lv) = jsAtomEq v lv := by
  cases v <;> simp_all [Conforms]

/-- Encode looks through an optional wrapper on non-`undefined`,
non-`null` values. -/
theorem schemaToConvex_optional (v : JSValue) (i : ZSchema)
    (h1 : v ≠ .undef) (h2 : v ≠ .null) :
    schemaToConvex v (.optional i) = schemaToConvex v i := by
  cases v <;> simp_all [schemaToConvex]

/-- Encode looks through a nullable wrapper on non-`undefined`,
non-`null` values. -/
theorem schemaToConvex_nullable (v : JSValue) (i : ZSchema)
    (h1 : v ≠ .undef) (h2 : v ≠ .null) :
    schemaToConvex v (.nullable i) = schemaToConvex v i := by
  cases v <;> simp_all [schemaToConvex]

/-- Encode looks through a default wrapper on non-`undefined`, non-`null`
values. -/
theorem schemaToConvex_default (v : JSValue) (dv : JSValue) (i : ZSchema)
    (h1 : v ≠ .undef) (h2 : v ≠ .null) :
    schemaToConvex v (.default dv i) = schemaToConvex v i := by
  cases v <;> simp_all [schemaToConvex]

/-- Decode looks through an optional wrapper on non-`undefined`,
non-`null` values. -/
theorem fromConvexJS_optional (e : JSValue) (i : ZSchema)
    (h1 : e ≠ .undef) (h2 : e ≠ .null) :
    fromConvexJS e (.optional i) = fromConvexJS e i := by
  cases e <;> simp_all [fromConvexJS]

/-- Decode looks through a nullable wrapper on non-`undefined`,
non-`null` values. -/
theorem fromConvexJS_nullable (e : JSValue) (i : ZSchema)
    (h1 : e ≠ .undef) (h2 : e ≠ .null) :
    fromConvexJS e (.nullable i) = fromConvexJS e i := by
  cases e <;> simp_all [fromConvexJS]

/-- Decode looks through a default wrapper on non-`undefined`,
non-`null` values. -/
theorem fromConvexJS_default (e : JSValue) (dv : JSValue) (i : ZSchema)
    (h1 : e ≠ .undef) (h2 : e ≠ .null) :
    fromConvexJS e (.default dv i) = fromConvexJS e i := by
  cases e <;> simp_all [fromConvexJS]

set_option maxHeartbeats 1600000

mutual

/-- Round-trip identity: decoding the schema-aware encoding of a
conforming value returns the value. -/
theorem roundtrip :
    ∀ (v : JSValue) (s : ZSchema), Conforms v s = true →
      fromConvexJS (schemaToConvex v s) s = v
  | v, s, h => by
    by_cases hu : v = .undef
    · subst hu; simp [schemaToConvex, fromConvexJS]
    by_cases hn : v = .null
    · subst hn; simp [schemaToConvex, fromConvexJS]
    cases s
    -- string
    · cases v <;> simp_all [Conforms, schemaToConvex, basicToConvex, fromConvexJS]
    -- number
    · cases v <;> simp_all [Conforms, schemaToConvex, basicToConvex, fromConvexJS]
    -- boolean
    · cases v <;> simp_all [Conforms, schemaToConvex, basicToConvex, fromConvexJS]
    -- date
    · cases v <;> simp_all [Conforms, schemaToConvex, basicToConvex, fromConvexJS]
    -- null
    · cases v <;> simp_all [Conforms, schemaToConvex, basicToConvex, fromConvexJS]
    -- literal
    · cases v <;> simp_all [Conforms, jsAtomEq, schemaToConvex, basicToConvex,
        fromConvexJS]
    -- enum
    · cases v <;> simp_all [Conforms, schemaToConvex, basicToConvex, fromConvexJS]
    -- array
    · rename_i e
      cases v
      · exact absurd rfl hu
      · exact absurd rfl hn
      · simp_all [Conforms]
      · simp_all [Conforms]
      · simp_all [Conforms]
      · simp_all [Conforms]
      · rename_i xs
        simp only [Conforms] at h
        simp only [schemaToConvex, fromConvexJS]
        rw [roundtripList xs e h]
      · simp_all [Conforms]
    -- object
    · rename_i shape
      cases v
      · exact absurd rfl hu
      · exact absurd rfl hn
      · simp_all [Conforms]
      · simp_all [Conforms]
      · simp_all [Conforms]
      · simp_all [Conforms]
      · simp_all [Conforms]
      · rename_i fields
        simp only [Conforms] at h
        rw [Bool.and_eq_true, Bool.and_eq_true] at h
        simp only [schemaToConvex, fromConvexJS]
        rw [roundtripFields fields shape h.1.2]
    -- record
    · rename_i val
      cases v
      · exact absurd rfl hu
      · exact absurd rfl hn
      · simp_all [Conforms]
      · simp_all [Conforms]
      · simp_all [Conforms]
      · simp_all [Conforms]
      · simp_all [Conforms]
      · rename_i fields
        simp only [Conforms] at h
        simp only [schemaToConvex, fromConvexJS]
        rw [roundtripRec fields val h]
    -- union
    · rename_i opts
      rw [Conforms_union v opts hu hn] at h
      obtain ⟨l1, o, l2, hsplit, hrej, hacc, hcap, hrt, hne1, hne2⟩ :=
        roundtripUnionAux opts v [] hu hn h
      have he : schemaToConvex v (.union opts) = schemaToConvex v o := by
        rw [show schemaToConvex v (.union opts) = schemaToConvexUnion v opts
          from toConvexJS_union v opts hu hn, hsplit]
        exact schemaToConvexUnion_firstMatch v o l1 l2 hrej hacc
      rw [he]
      rw [fromConvexJS_union _ opts hne1 hne2, hsplit]
      rw [fromConvexJSUnion_firstMatch (schemaToConvex v o) o l1 l2
        (fun p hp => hcap p (by simpa using hp))
        (by rw [hrt]; exact hacc)]
      exact hrt
    -- optional
    · rename_i inner
      rw [Conforms_optional v inner hu hn] at h
      rw [schemaToConvex_optional v inner hu hn]
      obtain ⟨hne1, hne2⟩ := encode_ne v inner hu hn
      rw [fromConvexJS_optional _ inner hne1 hne2]
      exact roundtrip v inner h
    -- nullable
    · rename_i inner
      rw [Conforms_nullable v inner hu hn] at h
      rw [schemaToConvex_nullable v inner hu hn]
      obtain ⟨hne1, hne2⟩ := encode_ne v inner hu hn
      rw [fromConvexJS_nullable _ inner hne1 hne2]
      exact roundtrip v inner h
    -- default
    · rename_i dv inner
      rw [Conforms_default v dv inner hu hn] at h
      rw [schemaToConvex_default v dv inner hu hn]
      obtain ⟨hne1, hne2⟩ := encode_ne v inner hu hn
      rw [fromConvexJS_default _ dv inner hne1 hne2]
      exact roundtrip v inner h
    -- transform
    · rename_i b
      cases b
      · cases v <;> simp_all [Conforms, schemaToConvex, fromConvexJS,
          basicToConvex_of_wireSafe, isWireSafe]
      · cases v <;> simp_all [Conforms, schemaToConvex, basicToConvex,
          fromConvexJS]
    -- any
    · cases v <;> simp_all [Conforms, schemaToConvex, fromConvexJS,
        basicToConvex_of_wireSafe, isWireSafe]
    -- unknown
    · cases v <;> simp_all [Conforms, schemaToConvex, fromConvexJS,
        basicToConvex_of_wireSafe, isWireSafe]
    -- ref
    · cases v <;> simp_all [Conforms, schemaToConvex, fromConvexJS,
        basicToConvex_of_wireSafe, isWireSafe]
termination_by v s h => (sizeOf v, sizeOf s)

/-- Element-wise round trip over an array. -/
theorem roundtripList :
    ∀ (xs : List JSValue) (e : ZSchema), conformsList xs e = true →
      fromConvexJSList (schemaToConvexList xs e) e = xs
  | [], e, _ => by simp [schemaToConvexList, fromConvexJSList]
  | x :: rest, e, h => by
      simp only [conformsList, Bool.and_eq_true] at h
      simp only [schemaToConvexList, fromConvexJSList]
      rw [roundtrip x e h.1, roundtripList rest e h.2]
termination_by xs e h => (sizeOf xs, sizeOf e)

/-- Field-wise round trip over an object. -/
theorem roundtripFields :
    ∀ (fields : List (String × JSValue)) (shape : List (String × ZSchema)),
      conformsFields fields shape = true →
      fromConvexJSObj (schemaToConvexObj fields shape) shape = fields
  | [], shape, _ => by simp [schemaToConvexObj, fromConvexJSObj]
  | (k, fv) :: rest, shape, h => by
      cases fv
      case undef => simp [conformsFields] at h
      all_goals
        simp only [conformsFields, Bool.and_eq_true] at h
        obtain ⟨h1, h2⟩ := h
        cases hl : shape.lookup k with
        | none => rw [hl] at h1; simp at h1
        | some s =>
            rw [hl] at h1
            simp only [schemaToConvexObj, hl, fromConvexJSObj]
            rw [roundtrip _ s h1, roundtripFields rest shape h2]
termination_by fields shape h => (sizeOf fields, sizeOf shape)

/-- Entry-wise round trip over a record. -/
theorem roundtripRec :
    ∀ (fields : List (String × JSValue)) (val : ZSchema),
      conformsRec fields val = true →
      fromConvexJSRec (schemaToConvexRec fields val) val = fields
  | [], val, _ => by simp [schemaToConvexRec, fromConvexJSRec]
  | (k, fv) :: rest, val, h => by
      cases fv
      case undef => simp [conformsRec] at h
      all_goals
        simp only [conformsRec, Bool.and_eq_true] at h
        obtain ⟨h1, h2⟩ := h
        simp only [schemaToConvexRec, fromConvexJSRec]
        rw [roundtrip _ val h1, roundtripRec rest val h2]
termination_by fields val h => (sizeOf fields, sizeOf val)

/-- Characterization of a conforming union instance: the branch list
splits at the first accepting branch, the instance round-trips through
that branch, no earlier branch re-captures the decoded encoding, and the
encoding is neither `undefined` nor `null`. -/
theorem roundtripUnionAux :
    ∀ (opts : List ZSchema) (v : JSValue) (pre : List ZSchema),
      v ≠ .undef → v ≠ .null → conformsUnion v pre opts = true →
      ∃ l1 o l2, opts = l1 ++ o :: l2 ∧
        (∀ p ∈ l1, zodAccepts p v = false) ∧
        zodAccepts o v = true ∧
        (∀ p ∈ pre ++ l1,
          zodAccepts p (fromConvexJS (schemaToConvex v o) p) = false) ∧
        fromConvexJS (schemaToConvex v o) o = v ∧
        schemaToConvex v o ≠ .undef ∧ schemaToConvex v o ≠ .null
  | [], v, pre, _, _, h => by simp [conformsUnion] at h
  | o :: rest, v, pre, hu, hn, h => by
      by_cases hacc : zodAccepts o v = true
      · simp only [conformsUnion, hacc, if_true] at h
        rw [Bool.and_eq_true] at h
        obtain ⟨hc, hcap⟩ := h
        obtain ⟨hne1, hne2⟩ := encode_ne v o hu hn
        refine ⟨[], o, rest, rfl, by simp, hacc, ?_, roundtrip v o hc,
          hne1, hne2⟩
        intro p hp
        simp only [List.append_nil] at hp
        have hv := List.all_eq_true.mp hcap p hp
        simpa using hv
      · have hacc' : zodAccepts o v = false := by
          revert hacc; cases zodAccepts o v <;> simp
        simp only [conformsUnion, hacc'] at h
        simp only [Bool.false_eq_true, if_false] at h
        obtain ⟨l1, o', l2, hsplit, hrej, hacc2, hcap, hrt, hne1, hne2⟩ :=
          roundtripUnionAux rest v (pre ++ [o]) hu hn h
        refine ⟨o :: l1, o', l2, by rw [hsplit, List.cons_append], ?_,
          hacc2, ?_, hrt, hne1, hne2⟩
        · intro p hp
          rcases List.mem_cons.mp hp with rfl | hp2
          · exact hacc'
          · exact hrej p hp2
        · intro p hp
          apply hcap
          simp only [List.mem_append, List.mem_cons] at hp ⊢
          tauto
termination_by opts v pre hu hn h => (sizeOf v, sizeOf opts)

/-- Schema-aware encoding of a non-`undefined`, non-`null` value is
neither `undefined` nor `null`. -/
theorem encode_ne :
    ∀ (v : JSValue) (s : ZSchema), v ≠ .undef → v ≠ .null →
      schemaToConvex v s ≠ .undef ∧ schemaToConvex v s ≠ .null
  | v, s, hu, hn => by
    cases s
    case optional inner =>
      rw [schemaToConvex_optional v inner hu hn]
      exact encode_ne v inner hu hn
    case nullable inner =>
      rw [schemaToConvex_nullable v inner hu hn]
      exact encode_ne v inner hu hn
    case default dv inner =>
      rw [schemaToConvex_default v dv inner hu hn]
      exact encode_ne v inner hu hn
    case union opts =>
      rw [show schemaToConvex v (.union opts) = schemaToConvexUnion v opts
        from toConvexJS_union v opts hu hn]
      exact encode_ne_union opts v hu hn
    all_goals cases v <;> simp_all [schemaToConvex, basicToConvex]
termination_by v s hu hn => (sizeOf v, sizeOf s)

/-- The encode union loop of a non-`undefined`, non-`null` value yields
neither `undefined` nor `null`. -/
theorem encode_ne_union :
    ∀ (opts : List ZSchema) (v : JSValue), v ≠ .undef → v ≠ .null →
      schemaToConvexUnion v opts ≠ .undef ∧ schemaToConvexUnion v opts ≠ .null
  | [], v, hu, hn => by
      simp only [schemaToConvexUnion]
      exact basic_ne v hu hn
  | o :: rest, v, hu, hn => by
      by_cases hacc : zodAccepts o v = true
      · simp only [schemaToConvexUnion, hacc, if_true]
        exact encode_ne v o hu hn
      · have hacc' : zodAccepts o v = false := by
          revert hacc; cases zodAccepts o v <;> simp
        simp only [schemaToConvexUnion, hacc']
        simp only [Bool.false_eq_true, if_false]
        exact encode_ne_union rest v hu hn
termination_by opts v hu hn => (sizeOf v, sizeOf opts)

end

/-- Claim C1: for every supported schema kind `s` and every value `v`
conforming to `s` (the `Conforms` relation, which carries the spec's
documented exception for ambiguous unions: a union instance must conform
to its first accepting branch and no earlier declared branch may capture
the value decoded from that branch's encoding), decoding the encoding of
`v` under `s` returns `v`:
`fromConvexJS (toConvexJS s v) s = v`. -/
theorem claim_C1_roundtrip :
    ∀ (s : ZSchema) (v : JSValue), Conforms v s = true →
      fromConvexJS (toConvexJS s v) s = v :=
  fun s v h => roundtrip v s h

/-- Witness for claim C1: an object with a date field, a present optional
string field, an unambiguous union field and an array field conforms and
round-trips. -/
theorem claim_C1_roundtrip_witness :
    Conforms
        (JSValue.obj [("when", .date 1704067200000), ("name", .str "a"),
          ("status", .str "on"), ("tags", .arr [.str "x"])])
        (ZSchema.object [("when", .date), ("name", .optional .string),
          ("status", .union [.number, .string]),
          ("tags", .array .string)]) = true ∧
    fromConvexJS
        (toConvexJS
          (ZSchema.object [("when", .date), ("name", .optional .string),
            ("status", .union [.number, .string]),
            ("tags", .array .string)])
          (JSValue.obj [("when", .date 1704067200000), ("name", .str "a"),
            ("status", .str "on"), ("tags", .arr [.str "x"])]))
        (ZSchema.object [("when", .date), ("name", .optional .string),
          ("status", .union [.number, .string]),
          ("tags", .array .string)]) =
      JSValue.obj [("when", .date 1704067200000), ("name", .str "a"),
        ("status", .str "on"), ("tags", .arr [.str "x"])] := by
  have hc : Conforms
      (JSValue.obj [("when", .date 1704067200000), ("name", .str "a"),
        ("status", .str "on"), ("tags", .arr [.str "x"])])
      (ZSchema.object [("when", .date), ("name", .optional .string),
        ("status", .union [.number, .string]),
        ("tags", .array .string)]) = true := by
    simp [Conforms, conformsFields, conformsList, conformsUnion, conformsRec,
      keysNodup, requiredPresent, isOptionalish, zodAccepts, jsAtomEq,
      List.lookup, schemaToConvex, fromConvexJS, basicToConvex, isWireSafe,
      zodAcceptsShape, zodAcceptsList, zodAcceptsRec, zodAcceptsAny]
  exact ⟨hc, claim_C1_roundtrip _ _ hc⟩
